import Mathlib

/-!
# Verification of the VRT/GCS ingestion pipeline

A shallow embedding of the core of the repository (app.py, drive_client.py):
video segmentation, the auto-upload file watcher, the recording websocket
session, the remote-store client (folder resolution, idempotent upload,
folder sequencing, drive-space accounting, verification-status rewriting),
and the spec-described reconciliation sync pass.

Durations probed from media files are modelled as rationals (the source
treats them as Python floats); byte strings as lists of naturals; the
remote store as an explicit object list with numeric ids.

Rational computations are written through Rat.divInt and the Rat.floor
primitive so that concrete instances evaluate by kernel reduction; each
such operation carries a bridging lemma equating it with the corresponding
Mathlib field operation.
-/

/-! ## Computable rational helpers and their bridges -/

/-- Kernel-reducible addition on rationals. -/
def qadd (a b : ℚ) : ℚ := Rat.divInt (a.num * b.den + b.num * a.den) (a.den * b.den)

/-- Kernel-reducible subtraction on rationals. -/
def qsub (a b : ℚ) : ℚ := Rat.divInt (a.num * b.den - b.num * a.den) (a.den * b.den)

/-- Kernel-reducible multiplication on rationals. -/
def qmul (a b : ℚ) : ℚ := Rat.divInt (a.num * b.num) (a.den * b.den)

/-- Kernel-reducible division on rationals. -/
def qdiv (a b : ℚ) : ℚ := Rat.divInt (a.num * b.den) (a.den * b.num)

lemma ratFloor_eq_intFloor (q : ℚ) : q.floor = ⌊q⌋ :=
  (Rat.floor_def' q).trans Rat.floor_def.symm

lemma qden_cast_ne_zero (a : ℚ) : ((a.den : ℚ)) ≠ 0 := by
  exact_mod_cast a.den_nz

lemma qadd_eq (a b : ℚ) : qadd a b = a + b := by
  unfold qadd
  rw [Rat.divInt_eq_div]
  conv_rhs => rw [← Rat.num_div_den a, ← Rat.num_div_den b]
  push_cast
  field_simp

lemma qsub_eq (a b : ℚ) : qsub a b = a - b := by
  unfold qsub
  rw [Rat.divInt_eq_div]
  conv_rhs => rw [← Rat.num_div_den a, ← Rat.num_div_den b]
  push_cast
  field_simp
  ring

lemma qmul_eq (a b : ℚ) : qmul a b = a * b := by
  unfold qmul
  rw [Rat.divInt_eq_div]
  conv_rhs => rw [← Rat.num_div_den a, ← Rat.num_div_den b]
  push_cast
  field_simp

lemma qdiv_eq (a b : ℚ) : qdiv a b = a / b := by
  unfold qdiv
  rw [Rat.divInt_eq_div]
  rcases eq_or_ne b 0 with hb | hb
  · subst hb; simp
  · have hbn : (b.num : ℚ) ≠ 0 := by
      simpa [Rat.num_ne_zero] using hb
    have had := qden_cast_ne_zero a
    have hbd := qden_cast_ne_zero b
    conv_rhs => rw [← Rat.num_div_den a, ← Rat.num_div_den b]
    push_cast
    field_simp

/-- Kernel-reducible floor of a quotient of rationals. -/
def qfloorDiv (a b : ℚ) : ℤ := (qdiv a b).floor

lemma qfloorDiv_eq (a b : ℚ) : qfloorDiv a b = ⌊a / b⌋ := by
  rw [qfloorDiv, ratFloor_eq_intFloor, qdiv_eq]

/-! ## Python arithmetic helpers -/

/-- Python float modulo a % b, which for floats is a - b * floor(a / b)
(the result carries the sign of b). -/
def pyMod (a b : ℚ) : ℚ := qsub a (qmul b (qfloorDiv a b : ℚ))

lemma pyMod_eq (a b : ℚ) : pyMod a b = a - b * ⌊a / b⌋ := by
  rw [pyMod, qsub_eq, qmul_eq, qfloorDiv_eq]

/-- Python format {:03d}: decimal, zero-padded to at least three digits. -/
def pad3 (n : Nat) : String :=
  if n < 10 then "00" ++ toString n
  else if n < 100 then "0" ++ toString n
  else toString n

example : pad3 5 = "005" := by decide
example : pad3 42 = "042" := by decide
example : pad3 1234 = "1234" := by decide

/-! ## Segmenter (app.py, segment_video)

segment_video probes the total duration, computes
num_clips = int(total_duration // clip_duration)
            + (1 if total_duration % clip_duration > 5 else 0)
and, for index i in range(num_clips), invokes the media tool with integer
start offset i * clip_duration and requested length clip_duration
(stream copy), writing {stem}_clip_{i+1:03d}.mp4 in order. -/

/-- One ffmpeg extraction issued by the segmenter: the requested source
offset and clip length (both Python ints in the source), and the output
file name. -/
structure SegClip where
  start : ℕ
  reqDuration : ℕ
  name : String
deriving Repr, DecidableEq

/-- The clip count of app.py line 121, as an integer (Python range of a
non-positive count is empty, matching Int.toNat below). -/
def numClipsZ (total : ℚ) (clipDuration : ℕ) : ℤ :=
  qfloorDiv total clipDuration + (if pyMod total clipDuration > 5 then 1 else 0)

/-- The ordered list of extractions performed by segment_video for a
source of probed duration total and clip length clipDuration. -/
def segment_video (videoStem : String) (total : ℚ) (clipDuration : ℕ) : List SegClip :=
  (List.range (numClipsZ total clipDuration).toNat).map fun i =>
    { start := i * clipDuration
      reqDuration := clipDuration
      name := videoStem ++ "_clip_" ++ pad3 (i + 1) ++ ".mp4" }

example : (segment_video "v" 36 15).length = 3 := by decide
example : (segment_video "v" 35 15).length = 2 := by decide
example : (segment_video "v" 30 15).length = 2 := by decide
example : (segment_video "v" 4 15).length = 0 := by decide
example : (segment_video "v" 6 15).length = 1 := by decide
example : (segment_video "v" 36 15).map SegClip.start = [0, 15, 30] := by decide
example : (segment_video "v" 36 15).map SegClip.name
    = ["v_clip_001.mp4", "v_clip_002.mp4", "v_clip_003.mp4"] := by decide

/-- C1: for a source of probed total duration D seconds and clip length
L > 0, segment_video produces exactly floor(D/L) + (1 if D mod L > 5
else 0) ordered clip files; the clip at index i is extracted at source
offset i*L with requested length L, every non-final clip has a full L
seconds of source material available (so only the last clip can be
shorter), and a trailing remainder of at most 5 seconds yields no clip. -/
theorem C1_segment_video (stem : String) (D : ℚ) (L : ℕ)
    (hD : 0 ≤ D) (hL : 0 < L) :
    (segment_video stem D L).length
        = (⌊D / (L : ℚ)⌋).toNat + (if pyMod D L > 5 then 1 else 0)
    ∧ (∀ i (h : i < (segment_video stem D L).length),
        ((segment_video stem D L).get ⟨i, h⟩).start = i * L
        ∧ ((segment_video stem D L).get ⟨i, h⟩).reqDuration = L
        ∧ ((segment_video stem D L).get ⟨i, h⟩).name
            = stem ++ "_clip_" ++ pad3 (i + 1) ++ ".mp4"
        ∧ (i + 1 < (segment_video stem D L).length → (i : ℚ) * L + L ≤ D))
    ∧ (pyMod D L ≤ 5 → (segment_video stem D L).length = (⌊D / (L : ℚ)⌋).toNat) := by
  have hL' : (0 : ℚ) < (L : ℚ) := by exact_mod_cast hL
  have hfl : 0 ≤ ⌊D / (L : ℚ)⌋ := Int.floor_nonneg.mpr (div_nonneg hD hL'.le)
  have hlen : (segment_video stem D L).length
      = (⌊D / (L : ℚ)⌋).toNat + (if pyMod D L > 5 then 1 else 0) := by
    simp only [segment_video, List.length_map, List.length_range, numClipsZ, qfloorDiv_eq]
    by_cases hm : pyMod D L > 5 <;> simp only [hm, if_true, if_false] <;> omega
  refine ⟨hlen, ?_, ?_⟩
  · intro i h
    refine ⟨?_, ?_, ?_, ?_⟩
    · simp [segment_video]
    · simp [segment_video]
    · simp [segment_video]
    · intro hlt
      rw [hlen] at hlt
      have hle : (i : ℤ) + 1 ≤ ⌊D / (L : ℚ)⌋ := by
        by_cases hm : pyMod D L > 5 <;> simp only [hm, if_true, if_false] at hlt <;> omega
      have hq : ((i : ℚ) + 1) ≤ D / (L : ℚ) := by
        have := Int.le_floor.mp hle
        push_cast at this
        exact this
      calc (i : ℚ) * L + L = ((i : ℚ) + 1) * L := by ring
        _ ≤ (D / (L : ℚ)) * L := mul_le_mul_of_nonneg_right hq hL'.le
        _ = D := div_mul_cancel₀ D hL'.ne'
  · intro hm
    rw [hlen, if_neg (not_lt.mpr hm), Nat.add_zero]

/-- Witness for C1 at D = 36, L = 15: hypotheses hold and the clip count
is 3 (floor(36/15) = 2 clips plus one for the 6-second remainder), with
starts 0, 15, 30. -/
theorem C1_segment_video_witness :
    ((0 : ℚ) ≤ 36 ∧ (0 : ℕ) < 15) ∧ (segment_video "v" 36 15).length = 3
      ∧ (segment_video "v" 36 15).map SegClip.start = [0, 15, 30] := by
  refine ⟨⟨by decide, by decide⟩, ?_, by decide⟩
  have h := (C1_segment_video "v" 36 15 (by decide) (by decide)).1
  rw [h, ← qfloorDiv_eq]
  decide

/-! ## Recording Session Manager (app.py, record_websocket)

For each received binary message, if it is non-empty the handler writes it
to a new file Clip{clip_number:03d}.webm in the session's Clips directory,
acknowledges with the clip number, and increments the counter; empty
messages are skipped. The model processes the ordered list of received
messages (the source loop is timing-free: nothing in it depends on
inter-arrival times). -/

/-- File name of the clip with sequence number n: Clip{n:03d}.webm. -/
def clipFileName (n : Nat) : String := "Clip" ++ pad3 n ++ ".webm"

/-- The receive loop of record_websocket, carrying the clip_number counter:
returns the (file name, content) pairs written, in order, and the sequence
numbers acknowledged to the client, in order. -/
def recordLoop : Nat → List (List Nat) → List (String × List Nat) × List Nat
  | _, [] => ([], [])
  | n, d :: rest =>
    if d ≠ [] then
      let r := recordLoop (n + 1) rest
      ((clipFileName n, d) :: r.1, n :: r.2)
    else recordLoop n rest

/-- One websocket recording session over the ordered list of received
binary messages (clip_number starts at 1). -/
def record_websocket (msgs : List (List Nat)) : List (String × List Nat) × List Nat :=
  recordLoop 1 msgs

example : record_websocket [[1], [2, 3], [4]]
    = ([("Clip001.webm", [1]), ("Clip002.webm", [2, 3]), ("Clip003.webm", [4])],
       [1, 2, 3]) := by decide
example : record_websocket [[1], [], [4]]
    = ([("Clip001.webm", [1]), ("Clip002.webm", [4])], [1, 2]) := by decide

lemma recordLoop_all_nonempty (msgs : List (List Nat)) :
    ∀ n, (∀ m ∈ msgs, m ≠ []) →
      recordLoop n msgs
        = (((List.range' n msgs.length).zip msgs).map fun p => (clipFileName p.1, p.2),
           List.range' n msgs.length) := by
  induction msgs with
  | nil => intro n _; simp [recordLoop]
  | cons d rest ih =>
    intro n h
    have hd : d ≠ [] := h d (List.mem_cons_self d rest)
    have hrest : ∀ m ∈ rest, m ≠ [] := fun m hm => h m (List.mem_cons_of_mem d hm)
    simp only [recordLoop, if_pos hd, ih (n + 1) hrest, List.length_cons,
      List.range'_succ, List.zip_cons_cons, List.map_cons]

/-- C4: a recording websocket receiving the ordered non-empty binary
messages m1, ..., mk writes files Clip001.webm, ..., Clip{k:03d}.webm
where the i-th file contains exactly mi, acknowledges each write with its
new sequence number, and the acknowledged sequence numbers are exactly
1, 2, ..., k: contiguous from 1 and strictly increasing in finalization
order (the model consumes the messages in arrival order only, so nothing
depends on inter-arrival timing). -/
theorem C4_record_websocket (msgs : List (List Nat)) (h : ∀ m ∈ msgs, m ≠ []) :
    (record_websocket msgs).1
        = ((List.range' 1 msgs.length).zip msgs).map (fun p => (clipFileName p.1, p.2))
    ∧ (∀ i (hi : i < msgs.length) (hf : i < (record_websocket msgs).1.length),
        ((record_websocket msgs).1.get ⟨i, hf⟩)
          = (clipFileName (i + 1), msgs.get ⟨i, hi⟩))
    ∧ (record_websocket msgs).2 = List.range' 1 msgs.length := by
  have key := recordLoop_all_nonempty msgs 1 h
  refine ⟨?_, ?_, ?_⟩
  · unfold record_websocket; rw [key]
  · intro i hi hf
    have h1 : (record_websocket msgs).1
        = ((List.range' 1 msgs.length).zip msgs).map (fun p => (clipFileName p.1, p.2)) := by
      unfold record_websocket; rw [key]
    rw [List.get_of_eq h1]
    simp [List.getElem_zip, List.getElem_range', Nat.add_comm 1 i]
  · unfold record_websocket; rw [key]

/-- Witness for C4 on the three-message session [[1], [2,3], [4]]: all
messages are non-empty, the files are Clip001.webm through Clip003.webm
with the respective contents, and the acknowledgments are 1, 2, 3. -/
theorem C4_record_websocket_witness :
    (∀ m ∈ [[1], [2, 3], [4]], m ≠ ([] : List Nat))
    ∧ (record_websocket [[1], [2, 3], [4]]).1
        = [("Clip001.webm", [1]), ("Clip002.webm", [2, 3]), ("Clip003.webm", [4])]
    ∧ (record_websocket [[1], [2, 3], [4]]).2 = [1, 2, 3] := by
  have h := C4_record_websocket [[1], [2, 3], [4]] (by decide)
  exact ⟨by decide, h.1.trans (by decide), h.2.2.trans (by decide)⟩

/-! ## Clip file visibility (app.py, record_websocket write path)

The recorder writes each clip with open(clip_path, 'wb') followed by
f.write(data): the file is created directly under its final name and only
then written and closed. The write path is modelled as the ordered list of
filesystem operations it performs. -/

/-- A primitive filesystem operation, in the order the writer performs
them. A file becomes visible under a path at its FileOp.create. -/
inductive FileOp where
  | create (path : List String)
  | write (path : List String) (data : List Nat)
  | close (path : List String)
deriving DecidableEq, Repr

/-- The operations performed by the recorder for one clip: open under the
final name (which creates the file), write the payload, close. There is
no temporary name, rename step, or completion marker. -/
def writeClipOps (clipPath : List String) (data : List Nat) : List FileOp :=
  [FileOp.create clipPath, FileOp.write clipPath data, FileOp.close clipPath]

/-- True when op is a write to path p. -/
def isWriteTo (p : List String) : FileOp → Bool
  | FileOp.write q _ => q == p
  | _ => false

/-- True when the trace creates p (making it visible under its final name)
and still writes to p afterwards, i.e. the file is observable under its
final name before its content is complete. -/
def createdThenWritten (p : List String) : List FileOp → Bool
  | [] => false
  | FileOp.create q :: rest => (q == p && rest.any (isWriteTo p)) || createdThenWritten p rest
  | _ :: rest => createdThenWritten p rest

/-- C6 (code evaluated at the failing input): for the very first clip of a
session, the recorder's write path creates the file under its final name
Clip001.webm inside the Clips directory and writes the payload only
afterwards, so the file is visible under its final name before it is
flushed and closed; no write-then-rename or completion marker exists, and
the watcher (on_created) fires on raw creation with no settle delay. -/
theorem C6_clip_created_before_written :
    createdThenWritten ["static", "temp", "Data1", "Clips", "Clip001.webm"]
        (writeClipOps ["static", "temp", "Data1", "Clips", "Clip001.webm"] [1, 2, 3]) = true
    ∧ clipFileName 1 = "Clip001.webm" := by decide

/-! ## Auto-Upload Watcher (app.py, TempFolderHandler)

on_created ignores directory events; for a file event it checks that the
path's suffix is '.mp4' and the parent directory is named 'Clips', then
derives the session folder name from the grandparent directory and hands
the file to auto_upload_clip, which uploads it to <session>/Clips and
swallows any failure. -/

/-- pathlib suffix: the substring of the file name from the last dot,
empty when the last dot is the first character or there is no dot or the
name ends in the dot. -/
def pathSuffix (name : String) : String :=
  let cs := name.toList
  match cs.reverse.findIdx? (fun c => c == '.') with
  | none => ""
  | some j =>
    let i := cs.length - 1 - j
    if 0 < i ∧ i < cs.length - 1 then String.mk (cs.drop i) else ""

example : pathSuffix "Clip001.webm" = ".webm" := by decide
example : pathSuffix "Clip001.mp4" = ".mp4" := by decide
example : pathSuffix "a.tar.mp4" = ".mp4" := by decide
example : pathSuffix ".mp4" = "" := by decide
example : pathSuffix "noext" = "" := by decide

/-- A watchdog filesystem event: whether it concerns a directory, and the
event path as its components. -/
structure FsEvent where
  is_directory : Bool
  src_path : List String
deriving DecidableEq, Repr

/-- TempFolderHandler.on_created: returns the (session folder name, file
name) passed to auto_upload_clip when the event triggers an upload, none
otherwise. The session folder name is the name of the file's grandparent
directory. -/
def on_created (e : FsEvent) : Option (String × String) :=
  if e.is_directory then none
  else
    match e.src_path.reverse with
    | fname :: parent :: gp :: _ =>
      if pathSuffix fname = ".mp4" ∧ parent = "Clips" then some (gp, fname)
      else none
    | _ => none

/-- C2 (code evaluated at the failing input): a file-created event for the
recorder's own first clip, static/temp/Data1/Clips/Clip001.webm — whose
parent directory is named Clips — triggers no upload, because on_created
also requires the suffix '.mp4' while the Recording Session Manager
finalizes '.webm' files; an otherwise identical '.mp4' event does trigger
an upload to session Data1. -/
theorem C2_webm_clip_event_not_uploaded :
    on_created ⟨false, ["static", "temp", "Data1", "Clips", "Clip001.webm"]⟩ = none
    ∧ clipFileName 1 = "Clip001.webm"
    ∧ on_created ⟨false, ["static", "temp", "Data1", "Clips", "Clip001.mp4"]⟩
        = some ("Data1", "Clip001.mp4") := by decide

/-- Outcome of one attempted drive upload, as seen by the caller: either
a file id, or the message of the exception the upload raised. -/
inductive UploadOutcome where
  | ok (fileId : Nat)
  | err (msg : String)
deriving DecidableEq, Repr

/-- TempFolderHandler.auto_upload_clip: the try/except around the upload is
embedded by the match on the upload's outcome; both branches return
normally with the log lines produced, so no failure propagates to the
caller (the source comment: do not raise, to keep the watcher alive). -/
def auto_upload_clip (folder_name clip_filename : String) :
    UploadOutcome → List String
  | UploadOutcome.ok fid =>
      ["Auto-uploading clip: " ++ clip_filename ++ " to " ++ folder_name ++ "/Clips",
       "Successfully uploaded " ++ clip_filename ++ " with ID: " ++ toString fid]
  | UploadOutcome.err e =>
      ["Auto-uploading clip: " ++ clip_filename ++ " to " ++ folder_name ++ "/Clips",
       "Failed to auto-upload clip: " ++ e]

/-- The watcher processing a stream of filesystem events in order: each
event goes through on_created and, when it triggers, auto_upload_clip with
that upload's outcome. Returns the per-event log lines. -/
def watcherRun (outcome : FsEvent → UploadOutcome) (events : List FsEvent) :
    List (List String) :=
  events.map fun e =>
    match on_created e with
    | some act => auto_upload_clip act.1 act.2 (outcome e)
    | none => []

/-- C8: the watcher handles every event regardless of upload outcomes —
auto_upload_clip returns normally (with a failure log line) even when the
upload errs, and processing a stream of events splits as the concatenation
of processing its parts, so a failed upload never halts the handling of
subsequent events. -/
theorem C8_upload_failures_never_propagate (outcome : FsEvent → UploadOutcome)
    (events rest : List FsEvent) (folder fname msg : String) :
    (watcherRun outcome events).length = events.length
    ∧ watcherRun outcome (events ++ rest)
        = watcherRun outcome events ++ watcherRun outcome rest
    ∧ auto_upload_clip folder fname (UploadOutcome.err msg)
        = ["Auto-uploading clip: " ++ fname ++ " to " ++ folder ++ "/Clips",
           "Failed to auto-upload clip: " ++ msg] := by
  refine ⟨?_, ?_, rfl⟩
  · simp [watcherRun]
  · simp [watcherRun]

/-! ## Python string helpers

Python str.split with a one-character separator, str.join, and
str.startswith, modelled over character lists so that concrete instances
evaluate by kernel reduction. -/

/-- Split a character list at every occurrence of sep; never returns the
empty list, and Python semantics hold: splitting the empty string yields
one empty segment. -/
def splitChar (sep : Char) : List Char → List (List Char)
  | [] => [[]]
  | c :: cs =>
    let r := splitChar sep cs
    if c == sep then [] :: r
    else
      match r with
      | [] => [[c]]
      | h :: t => (c :: h) :: t

/-- Interleave sep between the given segments (Python sep.join). -/
def joinChar (sep : Char) : List (List Char) → List Char
  | [] => []
  | [x] => x
  | x :: y :: t => x ++ sep :: joinChar sep (y :: t)

/-- Python s.split(sep) for a one-character separator. -/
def pySplit (sep : Char) (s : String) : List String :=
  (splitChar sep s.toList).map String.mk

/-- Python sep.join(lines) for a one-character separator. -/
def pyJoin (sep : Char) (lines : List String) : String :=
  String.mk (joinChar sep (lines.map String.toList))

/-- Python s.startswith(p), over the underlying character lists. -/
def listStartsWith : List Char → List Char → Bool
  | _, [] => true
  | [], _ :: _ => false
  | c :: cs, d :: ds => c == d && listStartsWith cs ds

/-- Python s.startswith(p). -/
def pyStartsWith (s p : String) : Bool := listStartsWith s.toList p.toList

example : pySplit '/' "Data1/Clips" = ["Data1", "Clips"] := by decide
example : pySplit '\n' "" = [""] := by decide
example : pySplit '\n' "a\nb\n" = ["a", "b", ""] := by decide
example : pyJoin '\n' ["a", "b", ""] = "a\nb\n" := by decide
example : pyStartsWith "Reason: x" "Reason:" = true := by decide
example : pyStartsWith "Re" "Reason:" = false := by decide

lemma splitChar_ne_nil (sep : Char) (cs : List Char) : splitChar sep cs ≠ [] := by
  cases cs with
  | nil => simp [splitChar]
  | cons c cs =>
    simp only [splitChar]
    split
    · simp
    · cases splitChar sep cs <;> simp

lemma sep_not_mem_splitChar (sep : Char) (cs : List Char) :
    ∀ x ∈ splitChar sep cs, sep ∉ x := by
  induction cs with
  | nil => intro x hx; simp [splitChar] at hx; simp [hx]
  | cons c cs ih =>
    intro x hx
    simp only [splitChar] at hx
    by_cases hc : c == sep
    · rw [if_pos hc] at hx
      rcases List.mem_cons.mp hx with h | h
      · simp [h]
      · exact ih x h
    · rw [if_neg hc] at hx
      rcases hr : splitChar sep cs with _ | ⟨h0, t⟩
      · exact absurd hr (splitChar_ne_nil sep cs)
      · rw [hr] at hx
        rcases List.mem_cons.mp hx with h | h
        · subst h
          intro hmem
          rcases List.mem_cons.mp hmem with h | h
          · exact (beq_iff_eq.not.mp hc) h.symm
          · exact ih h0 (hr ▸ List.mem_cons_self h0 t) h
        · exact ih x (hr ▸ List.mem_cons_of_mem h0 h)

lemma splitChar_sepFree (sep : Char) (x : List Char) (hx : sep ∉ x) :
    splitChar sep x = [x] := by
  induction x with
  | nil => rfl
  | cons c cs ih =>
    have hc : ¬(c == sep) = true := by
      simp only [beq_iff_eq]
      intro h
      exact hx (h ▸ List.mem_cons_self c cs)
    have hcs : sep ∉ cs := fun h => hx (List.mem_cons_of_mem c h)
    simp only [splitChar, if_neg hc, ih hcs]

lemma splitChar_append_sep (sep : Char) (x rest : List Char) (hx : sep ∉ x) :
    splitChar sep (x ++ sep :: rest) = x :: splitChar sep rest := by
  induction x with
  | nil => simp [splitChar]
  | cons c cs ih =>
    have hc : ¬(c == sep) = true := by
      simp only [beq_iff_eq]
      intro h
      exact hx (h ▸ List.mem_cons_self c cs)
    have hcs : sep ∉ cs := fun h => hx (List.mem_cons_of_mem c h)
    simp only [List.cons_append, splitChar, if_neg hc, List.append_eq, ih hcs]

lemma splitChar_joinChar (sep : Char) :
    ∀ xs : List (List Char), xs ≠ [] → (∀ x ∈ xs, sep ∉ x) →
      splitChar sep (joinChar sep xs) = xs := by
  intro xs
  induction xs with
  | nil => intro h; exact absurd rfl h
  | cons x rest ih =>
    intro _ hfree
    cases rest with
    | nil => exact splitChar_sepFree sep x (hfree x (List.mem_cons_self x []))
    | cons y t =>
      have hx : sep ∉ x := hfree x (List.mem_cons_self x (y :: t))
      have hrest := ih (by simp) (fun z hz => hfree z (List.mem_cons_of_mem x hz))
      show splitChar sep (x ++ sep :: joinChar sep (y :: t)) = x :: y :: t
      rw [splitChar_append_sep sep x _ hx, hrest]

/-! ## Drive Space Estimate (drive_client.py, increment_drive_space)

The client keeps a locally tracked dict {used, total, free, percentage},
initialized to {0, 15, 15, 0}; get_drive_space returns it without any
remote call. increment_drive_space adds the file size in GB to used,
subtracts it from free, recomputes percentage from the pre-rounding used
when total > 0, and then rounds used and free to two decimal places with
Python round (banker's rounding), modelled here over exact rationals. -/

/-- Round-half-even to the nearest integer (Python round on a scalar). -/
def roundHalfEven (q : ℚ) : ℤ :=
  let f := q.floor
  let r := qsub q (f : ℚ)
  if r < mkRat 1 2 then f
  else if mkRat 1 2 < r then f + 1
  else if f % 2 = 0 then f else f + 1

/-- Python round(q, 2) over exact rationals: half-even rounding of 100q,
divided by 100. -/
def round2 (q : ℚ) : ℚ := Rat.divInt (roundHalfEven (qmul q 100)) 100

example : round2 (mkRat 125 1000) = mkRat 12 100 := by decide
example : round2 (mkRat 135 1000) = mkRat 14 100 := by decide
example : round2 (mkRat 1 1048576) = 0 := by decide
example : round2 3 = 3 := by decide

/-- The locally tracked drive space estimate. -/
structure DriveSpace where
  used : ℚ
  total : ℚ
  free : ℚ
  percentage : ℚ
deriving DecidableEq, Repr

/-- The hardcoded initial estimate from DriveClient.__init__. -/
def hardcodedSpace : DriveSpace := ⟨0, 15, 15, 0⟩

/-- DriveClient.get_drive_space: returns the tracked estimate; no remote
call is involved (the estimate is a pure projection of local state). -/
def get_drive_space (sp : DriveSpace) : DriveSpace := sp

/-- DriveClient.increment_drive_space(size_in_bytes). -/
def increment_drive_space (sp : DriveSpace) (sizeBytes : ℕ) : DriveSpace :=
  let gb : ℚ := Rat.divInt (sizeBytes : ℤ) (1024 ^ 3)
  let used1 := qadd sp.used gb
  let free1 := qsub sp.free gb
  let pct := if 0 < sp.total then round2 (qmul (qdiv used1 sp.total) 100) else sp.percentage
  { used := round2 used1, total := sp.total, free := round2 free1, percentage := pct }

example : (increment_drive_space hardcodedSpace 1024).used = 0 := by decide
example : (increment_drive_space hardcodedSpace 1073741824).used = 1 := by decide
example : (increment_drive_space hardcodedSpace 1073741824).free = 14 := by decide

/-! ## Remote store model (drive_client.py)

The remote store is a list of objects with numeric ids; the root folder
has id 0. ListFile queries are filters over this list; pydrive returns
them in an unspecified order, modelled as the stored order, and the code
takes the first match. -/

/-- One remote object: id, title, parent folder id, whether it is a
folder, and the trashed flag. -/
structure DriveObj where
  oid : ℕ
  title : String
  parent : ℕ
  isFolder : Bool
  trashed : Bool
deriving DecidableEq, Repr

/-- The remote store: the object list and the next fresh id. -/
structure DriveState where
  objs : List DriveObj
  nextId : ℕ
deriving DecidableEq, Repr

/-- The ListFile query title='t' and 'parent' in parents and
mimeType=folder and trashed=false. -/
def folderQuery (s : DriveState) (t : String) (parent : ℕ) : List DriveObj :=
  s.objs.filter fun o => o.title == t && o.parent == parent && o.isFolder && !o.trashed

/-- The ListFile query title='t' and 'parent' in parents and trashed=false
used by upload_to_drive (note: no folder/file type constraint). -/
def titleQuery (s : DriveState) (t : String) (parent : ℕ) : List DriveObj :=
  s.objs.filter fun o => o.title == t && o.parent == parent && !o.trashed

/-- DriveClient.get_folder_id on pre-split path parts: resolve each
segment from the current parent, taking the first match; none as soon as
a segment is missing. -/
def get_folder_id_parts : List String → ℕ → DriveState → Option ℕ
  | [], parent, _ => some parent
  | part :: rest, parent, s =>
    match (folderQuery s part parent).head? with
    | none => none
    | some f => get_folder_id_parts rest f.oid s

/-- DriveClient.get_folder_id: split the path on '/' and resolve from the
root. -/
def get_folder_id (path : String) (s : DriveState) : Option ℕ :=
  get_folder_id_parts (pySplit '/' path) 0 s

/-- DriveClient.create_drive_folder on pre-split path parts: reuse the
first existing folder at each segment, create a fresh one otherwise. -/
def create_drive_folder_parts : List String → ℕ → DriveState → ℕ × DriveState
  | [], parent, s => (parent, s)
  | part :: rest, parent, s =>
    match (folderQuery s part parent).head? with
    | some f => create_drive_folder_parts rest f.oid s
    | none =>
      create_drive_folder_parts rest s.nextId
        ⟨s.objs ++ [⟨s.nextId, part, parent, true, false⟩], s.nextId + 1⟩

/-- DriveClient.create_drive_folder: split the path on '/' and walk from
the root. -/
def create_drive_folder (path : String) (s : DriveState) : ℕ × DriveState :=
  create_drive_folder_parts (pySplit '/' path) 0 s

/-- DriveClient.upload_to_drive: ensure the folder path exists; when an
untrashed object of the same name already exists in the target folder,
skip the transfer and return its id (drive space untouched); otherwise
create the file object, account its size via increment_drive_space, and
return the new id. Returns (returned id, remote store, space estimate). -/
def upload_to_drive (drive_path file_name : String) (sizeBytes : ℕ)
    (s : DriveState) (sp : DriveSpace) : ℕ × DriveState × DriveSpace :=
  let r := create_drive_folder drive_path s
  match (titleQuery r.2 file_name r.1).head? with
  | some f => (f.oid, r.2, sp)
  | none =>
    (r.2.nextId,
     ⟨r.2.objs ++ [⟨r.2.nextId, file_name, r.1, false, false⟩], r.2.nextId + 1⟩,
     increment_drive_space sp sizeBytes)

/-- A small concrete remote store: Data1/Clips containing a.mp4. -/
def exampleDrive : DriveState :=
  ⟨[⟨1, "Data1", 0, true, false⟩, ⟨2, "Clips", 1, true, false⟩,
    ⟨3, "a.mp4", 2, false, false⟩], 4⟩

example : get_folder_id "Data1/Clips" exampleDrive = some 2 := by decide
example : (upload_to_drive "Data1/Clips" "a.mp4" 1000 exampleDrive hardcodedSpace).1 = 3 := by
  decide
example : (upload_to_drive "Data1/Clips" "a.mp4" 1000 exampleDrive hardcodedSpace).2.1
    = exampleDrive := by decide
example : (upload_to_drive "Data1/Clips" "b.mp4" 1000 exampleDrive hardcodedSpace).1 = 4 := by
  decide
example : (upload_to_drive "Data2/Clips" "b.mp4" 1000 exampleDrive hardcodedSpace).2.1.nextId
    = 7 := by decide

lemma create_parts_of_resolvable : ∀ (parts : List String) (parent : ℕ) (s : DriveState)
    (fid : ℕ), get_folder_id_parts parts parent s = some fid →
    create_drive_folder_parts parts parent s = (fid, s) := by
  intro parts
  induction parts with
  | nil =>
    intro parent s fid h
    simp only [get_folder_id_parts, Option.some.injEq] at h
    simp [create_drive_folder_parts, h]
  | cons part rest ih =>
    intro parent s fid h
    cases hq : (folderQuery s part parent).head? with
    | none => rw [get_folder_id_parts, hq] at h; exact absurd h (by simp)
    | some f =>
      rw [get_folder_id_parts, hq] at h
      rw [create_drive_folder_parts, hq]
      exact ih f.oid s fid h

/-- An untrashed object named t under folder fid, as a Prop. -/
def HasObj (s : DriveState) (t : String) (fid : ℕ) : Prop :=
  ∃ o ∈ s.objs, o.title = t ∧ o.parent = fid ∧ o.trashed = false

instance (s : DriveState) (t : String) (fid : ℕ) : Decidable (HasObj s t fid) := by
  unfold HasObj
  infer_instance

lemma titleQuery_eq_nil_iff (s : DriveState) (t : String) (fid : ℕ) :
    titleQuery s t fid = [] ↔ ¬ HasObj s t fid := by
  rw [titleQuery, List.filter_eq_nil_iff]
  constructor
  · rintro h ⟨o, ho, h1, h2, h3⟩
    exact h o ho (by simp [h1, h2, h3])
  · intro h o ho hp
    simp only [Bool.and_eq_true, beq_iff_eq, Bool.not_eq_true'] at hp
    exact h ⟨o, ho, hp.1.1, hp.1.2, hp.2⟩

/-- Full case analysis of upload_to_drive under a resolvable target
path: skip-and-return-existing-id versus create-and-account. -/
lemma upload_to_drive_cases (drive_path file_name : String) (sizeBytes : ℕ)
    (s : DriveState) (sp : DriveSpace) (fid : ℕ)
    (hres : get_folder_id drive_path s = some fid) :
    (HasObj s file_name fid →
      (upload_to_drive drive_path file_name sizeBytes s sp).2.1 = s
      ∧ (upload_to_drive drive_path file_name sizeBytes s sp).2.2 = sp
      ∧ ∃ o ∈ s.objs, o.title = file_name ∧ o.parent = fid ∧ o.trashed = false
          ∧ (upload_to_drive drive_path file_name sizeBytes s sp).1 = o.oid)
    ∧ (¬ HasObj s file_name fid →
      (upload_to_drive drive_path file_name sizeBytes s sp).2.1
          = ⟨s.objs ++ [⟨s.nextId, file_name, fid, false, false⟩], s.nextId + 1⟩
      ∧ (upload_to_drive drive_path file_name sizeBytes s sp).1 = s.nextId
      ∧ (upload_to_drive drive_path file_name sizeBytes s sp).2.2
          = increment_drive_space sp sizeBytes) := by
  have hcre : create_drive_folder drive_path s = (fid, s) :=
    create_parts_of_resolvable (pySplit '/' drive_path) 0 s fid hres
  constructor
  · intro hex
    have hne : titleQuery s file_name fid ≠ [] := by
      rw [Ne, titleQuery_eq_nil_iff]
      exact fun h => h hex
    cases hq : (titleQuery s file_name fid).head? with
    | none => exact absurd (List.head?_eq_none_iff.mp hq) hne
    | some f =>
      have hfmem : f ∈ titleQuery s file_name fid := List.mem_of_mem_head? hq
      rw [titleQuery, List.mem_filter] at hfmem
      obtain ⟨hfo, hfp⟩ := hfmem
      simp only [Bool.and_eq_true, beq_iff_eq, Bool.not_eq_true'] at hfp
      have : upload_to_drive drive_path file_name sizeBytes s sp = (f.oid, s, sp) := by
        rw [upload_to_drive, hcre]
        simp [hq]
      rw [this]
      exact ⟨rfl, rfl, f, hfo, hfp.1.1, hfp.1.2, hfp.2, rfl⟩
  · intro hnex
    have hnil : titleQuery s file_name fid = [] := (titleQuery_eq_nil_iff s file_name fid).mpr hnex
    have : upload_to_drive drive_path file_name sizeBytes s sp
        = (s.nextId,
           ⟨s.objs ++ [⟨s.nextId, file_name, fid, false, false⟩], s.nextId + 1⟩,
           increment_drive_space sp sizeBytes) := by
      rw [upload_to_drive, hcre]
      simp [hnil]
    rw [this]
    exact ⟨rfl, rfl, rfl⟩

/-- C3: with the target folder path resolving to folder fid, if an
untrashed remote object named file_name already exists under fid then
upload_to_drive returns an existing object's id, leaves the remote store
completely unchanged (so no duplicate is created) and does not touch the
drive space estimate (no transfer); otherwise it adds exactly one new
object — the uploaded file, under fid, with the fresh id — returns that
id, and accounts the transferred bytes. -/
theorem C3_upload_to_drive_idempotent (drive_path file_name : String) (sizeBytes : ℕ)
    (s : DriveState) (sp : DriveSpace) (fid : ℕ)
    (hres : get_folder_id drive_path s = some fid) :
    (HasObj s file_name fid →
      (upload_to_drive drive_path file_name sizeBytes s sp).2.1 = s
      ∧ (upload_to_drive drive_path file_name sizeBytes s sp).2.2 = sp
      ∧ ∃ o ∈ s.objs, o.title = file_name ∧ o.parent = fid ∧ o.trashed = false
          ∧ (upload_to_drive drive_path file_name sizeBytes s sp).1 = o.oid)
    ∧ (¬ HasObj s file_name fid →
      (upload_to_drive drive_path file_name sizeBytes s sp).2.1
          = ⟨s.objs ++ [⟨s.nextId, file_name, fid, false, false⟩], s.nextId + 1⟩
      ∧ (upload_to_drive drive_path file_name sizeBytes s sp).1 = s.nextId
      ∧ (upload_to_drive drive_path file_name sizeBytes s sp).2.2
          = increment_drive_space sp sizeBytes) :=
  upload_to_drive_cases drive_path file_name sizeBytes s sp fid hres

/-- Witness for C3 on the concrete store Data1/Clips/a.mp4: the path
resolves to folder 2, a.mp4 already exists there, and re-uploading it
returns id 3 while leaving both the store and the space estimate
unchanged; uploading the fresh name b.mp4 adds exactly one object with
the fresh id 4. -/
theorem C3_upload_to_drive_idempotent_witness :
    get_folder_id "Data1/Clips" exampleDrive = some 2
    ∧ HasObj exampleDrive "a.mp4" 2
    ∧ (upload_to_drive "Data1/Clips" "a.mp4" 1000 exampleDrive hardcodedSpace).2.1
        = exampleDrive
    ∧ (upload_to_drive "Data1/Clips" "a.mp4" 1000 exampleDrive hardcodedSpace).2.2
        = hardcodedSpace
    ∧ ¬ HasObj exampleDrive "b.mp4" 2
    ∧ (upload_to_drive "Data1/Clips" "b.mp4" 1000 exampleDrive hardcodedSpace).1
        = exampleDrive.nextId := by
  have ha := (C3_upload_to_drive_idempotent "Data1/Clips" "a.mp4" 1000
    exampleDrive hardcodedSpace 2 (by decide)).1 (by decide)
  have hb := (C3_upload_to_drive_idempotent "Data1/Clips" "b.mp4" 1000
    exampleDrive hardcodedSpace 2 (by decide)).2 (by decide)
  exact ⟨by decide, by decide, ha.1, ha.2.1, by decide, hb.2.1⟩

lemma roundHalfEven_ge (n : ℤ) (q : ℚ) (h : (n : ℚ) ≤ q) : n ≤ roundHalfEven q := by
  have hf : n ≤ ⌊q⌋ := Int.le_floor.mpr h
  simp only [roundHalfEven, ratFloor_eq_intFloor]
  split_ifs <;> omega

lemma round2_eq (q : ℚ) : round2 q = ((roundHalfEven (q * 100) : ℤ) : ℚ) / 100 := by
  rw [round2, Rat.divInt_eq_div, qmul_eq]
  norm_num

lemma divInt_natCast_eq (b : ℕ) (d : ℤ) :
    Rat.divInt (b : ℤ) d = (b : ℚ) / (d : ℚ) := by
  rw [Rat.divInt_eq_div]
  norm_cast

/-- C9 (as amended): get_drive_space returns the tracked estimate with no
remote query; a skipped upload (same name already present) leaves the
estimate unchanged while a confirmed upload passes the transferred byte
count to increment_drive_space; increment_drive_space adds size/1024^3 GB
to used and subtracts it from free, each then rounded to two decimals
(Python banker's rounding), recomputing percentage from the pre-rounding
used when total > 0; and used never decreases when the stored used is a
two-decimal value (as it always is, starting from the hardcoded 0). -/
theorem C9_drive_space_accounting (drive_path file_name : String) (sizeBytes : ℕ)
    (s : DriveState) (sp : DriveSpace) (fid : ℕ)
    (hres : get_folder_id drive_path s = some fid) :
    get_drive_space sp = sp
    ∧ (HasObj s file_name fid →
        (upload_to_drive drive_path file_name sizeBytes s sp).2.2 = sp)
    ∧ (¬ HasObj s file_name fid →
        (upload_to_drive drive_path file_name sizeBytes s sp).2.2
          = increment_drive_space sp sizeBytes)
    ∧ (increment_drive_space sp sizeBytes).used
        = round2 (sp.used + (sizeBytes : ℚ) / 1024 ^ 3)
    ∧ (increment_drive_space sp sizeBytes).free
        = round2 (sp.free - (sizeBytes : ℚ) / 1024 ^ 3)
    ∧ (increment_drive_space sp sizeBytes).total = sp.total
    ∧ (0 < sp.total → (increment_drive_space sp sizeBytes).percentage
        = round2 ((sp.used + (sizeBytes : ℚ) / 1024 ^ 3) / sp.total * 100))
    ∧ ((∃ m : ℤ, sp.used = (m : ℚ) / 100) →
        sp.used ≤ (increment_drive_space sp sizeBytes).used) := by
  have hgb : Rat.divInt (sizeBytes : ℤ) (1024 ^ 3) = (sizeBytes : ℚ) / 1024 ^ 3 := by
    rw [divInt_natCast_eq sizeBytes (1024 ^ 3)]
    norm_num
  have hused : (increment_drive_space sp sizeBytes).used
      = round2 (sp.used + (sizeBytes : ℚ) / 1024 ^ 3) := by
    simp only [increment_drive_space, hgb, qadd_eq]
  refine ⟨rfl, ?_, ?_, hused, ?_, rfl, ?_, ?_⟩
  · exact fun hex => ((upload_to_drive_cases drive_path file_name sizeBytes
      s sp fid hres).1 hex).2.1
  · exact fun hnex => ((upload_to_drive_cases drive_path file_name sizeBytes
      s sp fid hres).2 hnex).2.2
  · simp only [increment_drive_space, hgb, qsub_eq]
  · intro ht
    simp only [increment_drive_space, hgb, qadd_eq, qdiv_eq, qmul_eq, if_pos ht]
  · rintro ⟨m, hm⟩
    rw [hused, hm, round2_eq]
    have hgb0 : (0 : ℚ) ≤ (sizeBytes : ℚ) / 1024 ^ 3 := by positivity
    have harg : (m : ℚ) ≤ ((m : ℚ) / 100 + (sizeBytes : ℚ) / 1024 ^ 3) * 100 := by
      rw [add_mul, div_mul_cancel₀ (m : ℚ) (by norm_num)]
      nlinarith
    have hr := roundHalfEven_ge m _ harg
    rw [div_le_div_iff_of_pos_right (by norm_num : (0 : ℚ) < 100)]
    exact_mod_cast hr

/-- Witness for C9 on the concrete store Data1/Clips/a.mp4 and the initial
estimate: re-uploading a.mp4 (1 KB) leaves the estimate untouched, used
starts as a two-decimal value and does not decrease when the 1 KB upload
is accounted, and the rounding step leaves used at 0 for so small a file. -/
theorem C9_drive_space_accounting_witness :
    get_folder_id "Data1/Clips" exampleDrive = some 2
    ∧ HasObj exampleDrive "a.mp4" 2
    ∧ (∃ m : ℤ, hardcodedSpace.used = (m : ℚ) / 100)
    ∧ (upload_to_drive "Data1/Clips" "a.mp4" 1024 exampleDrive hardcodedSpace).2.2
        = hardcodedSpace
    ∧ hardcodedSpace.used ≤ (increment_drive_space hardcodedSpace 1024).used
    ∧ (increment_drive_space hardcodedSpace 1024).used = 0 := by
  have h := C9_drive_space_accounting "Data1/Clips" "a.mp4" 1024
    exampleDrive hardcodedSpace 2 (by decide)
  refine ⟨by decide, by decide, ⟨0, by norm_num [hardcodedSpace]⟩, ?_, ?_, by decide⟩
  · exact h.2.1 (by decide)
  · exact h.2.2.2.2.2.2.2 ⟨0, by norm_num [hardcodedSpace]⟩

/-- Counterexample to C9 as stated: uploading a 1 KB file does not
increment used by exactly 1024/1024^3 GB — the source rounds used to two
decimals after adding, so used stays 0 (and free stays 15) while the
exact increment would be 1/1048576. -/
theorem C9_increment_not_exact_cex :
    (increment_drive_space hardcodedSpace 1024).used
      ≠ hardcodedSpace.used + (1024 : ℚ) / 1024 ^ 3 := by
  have h1 : (increment_drive_space hardcodedSpace 1024).used = 0 := by decide
  rw [h1, hardcodedSpace]
  norm_num

/-! ## Folder Sequencer (drive_client.py)

get_next_folder_name_from_drive lists the untrashed top-level remote
folders (modelled as the list of their titles), keeps those whose title
starts with "Data" and matches the regular expression Data(\d+) anchored
at the start (the capture is the maximal ASCII digit run following
"Data"), and returns Data{max+1} (Data1 when none match). On any listing
failure it falls back to get_next_folder_name_from_local, which keeps the
staging directories whose name starts with "Data" and whose remainder
after the first four characters parses as a Python int literal
(int(name[4:]): optional surrounding whitespace, optional sign, digits
with single underscores between them). -/

/-- Decimal value of a digit run. -/
def digitsToNat (ds : List Char) : ℕ := ds.foldl (fun a c => a * 10 + (c.toNat - 48)) 0

/-- The integer captured by re.match(r'Data(\d+)', title), when the match
succeeds (ASCII digits). -/
def remoteDataNum (title : String) : Option ℤ :=
  if pyStartsWith title "Data" then
    if ((title.toList.drop 4).takeWhile Char.isDigit).isEmpty then none
    else some (digitsToNat ((title.toList.drop 4).takeWhile Char.isDigit) : ℤ)
  else none

/-- next_num = max(nums) + 1 if nums else 1; returns f"Data{next_num}". -/
def dataNameOfNums (nums : List ℤ) : String :=
  match nums with
  | [] => "Data1"
  | x :: t => "Data" ++ toString (t.foldl max x + 1)

/-- DriveClient.get_next_folder_name_from_drive over the titles of the
untrashed top-level remote folders. -/
def get_next_folder_name_from_drive (titles : List String) : String :=
  dataNameOfNums (titles.filterMap remoteDataNum)

/-- After an initial digit: the rest of a Python int literal's digit part
(digits with single underscores between them). -/
def digitRun : List Char → Bool
  | [] => true
  | [c] => c.isDigit
  | c :: d :: rest =>
    if c == '_' then d.isDigit && digitRun (d :: rest)
    else c.isDigit && digitRun (d :: rest)

/-- Python str.strip(): remove leading and trailing whitespace. -/
def pyStrip (cs : List Char) : List Char :=
  ((cs.dropWhile Char.isWhitespace).reverse.dropWhile Char.isWhitespace).reverse

/-- Python int(s) on a string: strip whitespace, optional sign, then a
non-empty ASCII digit part with single underscores between digits; none
models the ValueError that the local scanner catches and skips. -/
def pyInt (str1 : String) : Option ℤ :=
  let cs := pyStrip str1.toList
  let sb : ℤ × List Char :=
    match cs with
    | [] => (1, [])
    | c :: r => if c == '+' then (1, r) else if c == '-' then (-1, r) else (1, c :: r)
  match sb.2 with
  | [] => none
  | c :: rest =>
    if c.isDigit && digitRun rest then
      some (sb.1 * (digitsToNat ((c :: rest).filter fun d => d != '_') : ℤ))
    else none

example : pyInt "123" = some 123 := by decide
example : pyInt " -4 " = some (-4) := by decide
example : pyInt "1_2" = some 12 := by decide
example : pyInt "12abc" = none := by decide
example : pyInt "" = none := by decide
example : pyInt "_1" = none := by decide
example : pyInt "1_" = none := by decide
example : pyInt "+7" = some 7 := by decide

/-- DriveClient.get_next_folder_name_from_local over the names of the
staging directories: keep names starting with "Data" whose remainder
parses as a Python int, then max+1 (Data1 when none). -/
def get_next_folder_name_from_local (dirNames : List String) : String :=
  dataNameOfNums ((dirNames.filter fun n => pyStartsWith n "Data").filterMap
    fun n => pyInt (String.mk (n.toList.drop 4)))

/-- The Folder Sequencer: the remote computation when the listing
succeeds (modelled as some titles), the local fallback when it raises
(none). -/
def get_next_folder_name (remoteTitles : Option (List String))
    (localDirs : List String) : String :=
  match remoteTitles with
  | some titles => get_next_folder_name_from_drive titles
  | none => get_next_folder_name_from_local localDirs

example : get_next_folder_name (some ["Data1", "Data3", "Data7"]) [] = "Data8" := by decide
example : get_next_folder_name none ["Data1", "Data3", "Data7"] = "Data8" := by decide
example : get_next_folder_name (some []) [] = "Data1" := by decide

/-- The number extracted by claim C5's reading: the folder name is exactly
"Data" followed by one or more digits. Stated from the claim's words, for
comparison with the source's extraction. -/
def specDataNum (title : String) : Option ℤ :=
  if pyStartsWith title "Data" ∧ title.toList.drop 4 ≠ []
      ∧ (title.toList.drop 4).all Char.isDigit then
    some (digitsToNat (title.toList.drop 4) : ℤ)
  else none

/-- The next name predicted by claim C5: Data(N+1) with N the maximum over
names of the form Data<digits>, Data1 when there are none. -/
def specNextDataName (names : List String) : String :=
  dataNameOfNums (names.filterMap specDataNum)

/-- Counterexample to C5 as stated: with remote top-level folders Data1
and Data12abc, the only folder named Data<digits> is Data1, so the claim
predicts Data2; the source's regular expression Data(\d+) matches the
prefix of Data12abc and captures 12, so the code returns Data13. -/
theorem C5_next_folder_name_cex :
    get_next_folder_name (some ["Data1", "Data12abc"]) [] = "Data13"
    ∧ specNextDataName ["Data1", "Data12abc"] = "Data2"
    ∧ get_next_folder_name (some ["Data1", "Data12abc"]) []
        ≠ specNextDataName ["Data1", "Data12abc"] := by decide

lemma digit_not_whitespace (c : Char) (h : c.isDigit = true) : c.isWhitespace = false := by
  simp only [Char.isWhitespace, Bool.or_eq_false_iff, decide_eq_false_iff_not]
  refine ⟨⟨⟨fun hc => ?_, fun hc => ?_⟩, fun hc => ?_⟩, fun hc => ?_⟩ <;>
    (subst hc; exact absurd h (by decide))

lemma digit_beq_eq_false (c d : Char) (hc : c.isDigit = true) (hd : d.isDigit = false) :
    (c == d) = false := by
  simp only [beq_eq_false_iff_ne, ne_eq]
  intro h
  subst h
  rw [hc] at hd
  exact Bool.noConfusion hd

lemma takeWhile_of_all {p : Char → Bool} (l : List Char) (h : l.all p = true) :
    l.takeWhile p = l := by
  induction l with
  | nil => rfl
  | cons c t ih =>
    simp only [List.all_cons, Bool.and_eq_true] at h
    simp [List.takeWhile_cons, h.1, ih h.2]

lemma dropWhile_ws_of_all_digit (m : List Char) (hm : m.all Char.isDigit = true) :
    m.dropWhile Char.isWhitespace = m := by
  cases m with
  | nil => rfl
  | cons c t =>
    simp only [List.all_cons, Bool.and_eq_true] at hm
    simp [List.dropWhile_cons, digit_not_whitespace c hm.1]

lemma pyStrip_of_all_digit (l : List Char) (h : l.all Char.isDigit = true) :
    pyStrip l = l := by
  rw [pyStrip, dropWhile_ws_of_all_digit l h,
    dropWhile_ws_of_all_digit l.reverse (by simpa using h), List.reverse_reverse]

lemma digitRun_of_all (l : List Char) (h : l.all Char.isDigit = true) :
    digitRun l = true := by
  induction l with
  | nil => rfl
  | cons c t ih =>
    simp only [List.all_cons, Bool.and_eq_true] at h
    have hne := digit_beq_eq_false c '_' h.1 (by decide)
    cases t with
    | nil => simpa [digitRun] using h.1
    | cons d r => simp [digitRun, hne, h.1, ih h.2]

lemma pyInt_of_all_digit (ds : List Char) (hne : ds ≠ []) (hall : ds.all Char.isDigit = true) :
    pyInt (String.mk ds) = some (digitsToNat ds : ℤ) := by
  cases ds with
  | nil => exact absurd rfl hne
  | cons c r =>
    have hlist : (String.mk (c :: r)).toList = c :: r := rfl
    simp only [List.all_cons, Bool.and_eq_true] at hall
    have hfilter : (c :: r).filter (fun d => d != '_') = c :: r := by
      rw [List.filter_eq_self]
      intro a ha
      have : a.isDigit = true := by
        rcases List.mem_cons.mp ha with h | h
        · exact h ▸ hall.1
        · exact (List.all_eq_true.mp hall.2) a h
      simpa [bne] using digit_beq_eq_false a '_' this (by decide)
    simp only [pyInt, hlist, pyStrip_of_all_digit (c :: r) (by simp [hall.1, hall.2]),
      digit_beq_eq_false c '+' hall.1 (by decide),
      digit_beq_eq_false c '-' hall.1 (by decide), Bool.false_eq_true, if_false,
      hall.1, digitRun_of_all r hall.2, Bool.and_self, if_true, hfilter, one_mul]

lemma remoteDataNum_eq_spec (t : String)
    (hc : pyStartsWith t "Data" = true → (t.toList.drop 4).all Char.isDigit = true) :
    remoteDataNum t = specDataNum t := by
  by_cases hs : pyStartsWith t "Data" = true
  · have hall := hc hs
    obtain ⟨xs, hxs⟩ : ∃ xs, t.toList.drop 4 = xs := ⟨_, rfl⟩
    rw [hxs] at hall
    cases xs with
    | nil =>
      have h1 : remoteDataNum t = none := by
        unfold remoteDataNum
        rw [if_pos hs, hxs, List.takeWhile_nil]
        simp
      have h2 : specDataNum t = none := by
        unfold specDataNum
        rw [if_neg]
        rintro ⟨-, hne, -⟩
        exact hne hxs
      rw [h1, h2]
    | cons c r =>
      have h1 : remoteDataNum t = some (digitsToNat (c :: r) : ℤ) := by
        unfold remoteDataNum
        rw [if_pos hs, hxs, takeWhile_of_all (c :: r) hall]
        simp
      have h2 : specDataNum t = some (digitsToNat (c :: r) : ℤ) := by
        unfold specDataNum
        rw [if_pos ⟨hs, by rw [hxs]; simp, by rw [hxs]; exact hall⟩, hxs]
      rw [h1, h2]
  · have hs' : pyStartsWith t "Data" = false := by
      cases hb : pyStartsWith t "Data" with
      | false => rfl
      | true => exact absurd hb hs
    have h1 : remoteDataNum t = none := by
      unfold remoteDataNum
      rw [if_neg]
      rw [hs']
      exact Bool.noConfusion
    have h2 : specDataNum t = none := by
      unfold specDataNum
      rw [if_neg]
      rintro ⟨hh, -, -⟩
      rw [hs'] at hh
      exact Bool.noConfusion hh
    rw [h1, h2]

lemma localNum_eq_spec (d : String) (hs : pyStartsWith d "Data" = true)
    (hall : (d.toList.drop 4).all Char.isDigit = true) :
    pyInt (String.mk (d.toList.drop 4)) = specDataNum d := by
  obtain ⟨xs, hxs⟩ : ∃ xs, d.toList.drop 4 = xs := ⟨_, rfl⟩
  rw [hxs] at hall ⊢
  cases xs with
  | nil =>
    have h2 : specDataNum d = none := by
      unfold specDataNum
      rw [if_neg]
      rintro ⟨-, hne, -⟩
      exact hne hxs
    rw [h2]
    decide
  | cons c r =>
    have h2 : specDataNum d = some (digitsToNat (c :: r) : ℤ) := by
      unfold specDataNum
      rw [if_pos ⟨hs, by rw [hxs]; simp, by rw [hxs]; exact hall⟩, hxs]
    rw [pyInt_of_all_digit (c :: r) (by simp) hall, h2]

lemma local_nums_eq (ds : List String)
    (hc : ∀ d ∈ ds, pyStartsWith d "Data" = true →
      (d.toList.drop 4).all Char.isDigit = true) :
    (ds.filter fun n => pyStartsWith n "Data").filterMap
        (fun n => pyInt (String.mk (n.toList.drop 4)))
      = ds.filterMap specDataNum := by
  induction ds with
  | nil => rfl
  | cons d t ih =>
    have hct : ∀ x ∈ t, pyStartsWith x "Data" = true →
        (x.toList.drop 4).all Char.isDigit = true :=
      fun x hx => hc x (List.mem_cons_of_mem d hx)
    by_cases hs : pyStartsWith d "Data" = true
    · rw [List.filter_cons, if_pos hs, List.filterMap_cons, List.filterMap_cons,
        localNum_eq_spec d hs (hc d (List.mem_cons_self d t) hs), ih hct]
    · have hnone : specDataNum d = none := by
        simp only [Bool.not_eq_true] at hs
        simp [specDataNum, hs]
      rw [List.filter_cons, if_neg (by simp [hs]), List.filterMap_cons, hnone, ih hct]

lemma remote_nums_eq (ts : List String)
    (hc : ∀ t ∈ ts, pyStartsWith t "Data" = true →
      (t.toList.drop 4).all Char.isDigit = true) :
    ts.filterMap remoteDataNum = ts.filterMap specDataNum := by
  induction ts with
  | nil => rfl
  | cons t rest ih =>
    rw [List.filterMap_cons, List.filterMap_cons,
      remoteDataNum_eq_spec t (hc t (List.mem_cons_self t rest)),
      ih fun x hx => hc x (List.mem_cons_of_mem t hx)]

/-- C5 (as amended): the Folder Sequencer returns Data(N+1) with N the
maximum integer among existing remote top-level folders named
Data<digits>, and falls back to the same computation over the local
staging directories when the remote listing fails — PROVIDED every folder
name that starts with "Data" continues with digits only. (Without that
proviso the remote scan takes the leading digit run of names like
Data12abc, counting 12, and the local scan accepts any Python int literal
after "Data", e.g. "Data -4"; see the counterexample.) -/
theorem C5_next_folder_name (titles localDirs : List String)
    (hr : ∀ t ∈ titles, pyStartsWith t "Data" = true →
      (t.toList.drop 4).all Char.isDigit = true)
    (hl : ∀ d ∈ localDirs, pyStartsWith d "Data" = true →
      (d.toList.drop 4).all Char.isDigit = true) :
    get_next_folder_name (some titles) localDirs = specNextDataName titles
    ∧ get_next_folder_name none localDirs = specNextDataName localDirs := by
  constructor
  · show get_next_folder_name_from_drive titles = specNextDataName titles
    rw [get_next_folder_name_from_drive, specNextDataName, remote_nums_eq titles hr]
  · show get_next_folder_name_from_local localDirs = specNextDataName localDirs
    rw [get_next_folder_name_from_local, specNextDataName, local_nums_eq localDirs hl]

/-- Witness for C5 at the spec's example: remote folders Data1, Data3,
Data7 are canonical, and the Sequencer returns Data8; with the listing
failed, the same names in the local staging area also give Data8. -/
theorem C5_next_folder_name_witness :
    (∀ t ∈ ["Data1", "Data3", "Data7"], pyStartsWith t "Data" = true →
      (t.toList.drop 4).all Char.isDigit = true)
    ∧ get_next_folder_name (some ["Data1", "Data3", "Data7"]) [] = "Data8"
    ∧ get_next_folder_name none ["Data1", "Data3", "Data7"] = "Data8" := by
  have h := C5_next_folder_name ["Data1", "Data3", "Data7"] ["Data1", "Data3", "Data7"]
    (by decide) (by decide)
  exact ⟨by decide, (C5_next_folder_name ["Data1", "Data3", "Data7"] []
    (by decide) (by decide)).1.trans (by decide), h.2.trans (by decide)⟩

/-! ## Verification status rewrite (drive_client.py, update_verification_status)

The method reads patient.txt, splits it on newlines, rewrites the lines
beginning with 'Verification Status:', 'Reason:' and 'Timestamp:' to the
new values (timestamp or '' when absent), keeps every other line, and
writes back the '\n'-join. -/

/-- One line of the rewrite loop in update_verification_status. -/
def replaceStatusLine (status reason : String) (timestamp : Option String)
    (line : String) : String :=
  if pyStartsWith line "Verification Status:" then "Verification Status: " ++ status
  else if pyStartsWith line "Reason:" then "Reason: " ++ reason
  else if pyStartsWith line "Timestamp:" then "Timestamp: " ++ timestamp.getD ""
  else line

/-- DriveClient.update_verification_status applied to the current
patient.txt content: the written-back content. -/
def update_verification_status (status reason : String) (timestamp : Option String)
    (content : String) : String :=
  pyJoin '\n' ((pySplit '\n' content).map (replaceStatusLine status reason timestamp))

/-- The patient.txt content produced by /api/upload (app.py lines 265-269)
for a sample patient. -/
def examplePatientContent : String :=
  "Name: A\nAge: 3\nGender: F\nCondition: X\nVerification Status: Pending\nReason: \nTimestamp: \nClip Duration: 15s"

example : update_verification_status "Approved" "ok" (some "t1") examplePatientContent
    = "Name: A\nAge: 3\nGender: F\nCondition: X\nVerification Status: Approved\nReason: ok\nTimestamp: t1\nClip Duration: 15s" := by
  decide

lemma pySplit_pyJoin (sep : Char) (ys : List String) (hne : ys ≠ [])
    (hfree : ∀ y ∈ ys, sep ∉ y.toList) : pySplit sep (pyJoin sep ys) = ys := by
  rw [pyJoin, pySplit]
  have hlist : (String.mk (joinChar sep (ys.map String.toList))).toList
      = joinChar sep (ys.map String.toList) := rfl
  rw [hlist, splitChar_joinChar sep _ (by simpa using hne)
    (by
      intro x hx
      obtain ⟨y, hy, rfl⟩ := List.mem_map.mp hx
      exact hfree y hy)]
  rw [List.map_map]
  exact List.map_id ys

/-- C10: for every stored patient.txt content, update_verification_status
writes back exactly the old content with the lines beginning
'Verification Status:', 'Reason:' and 'Timestamp:' replaced by the new
values, preserving every other line verbatim and in its original order:
the line list of the written content is the pointwise image of the old
line list under replaceStatusLine, which replaces a line exactly when it
begins with one of the three markers (checked in that order) and is the
identity otherwise. The replacement values are assumed newline-free, as
the line structure is otherwise not preserved. -/
theorem C10_update_verification_status_frame (status reason : String)
    (timestamp : Option String) (content : String)
    (hs : '\n' ∉ status.toList) (hr : '\n' ∉ reason.toList)
    (ht : '\n' ∉ (timestamp.getD "").toList) :
    pySplit '\n' (update_verification_status status reason timestamp content)
        = (pySplit '\n' content).map (replaceStatusLine status reason timestamp)
    ∧ (∀ line : String, pyStartsWith line "Verification Status:" = false →
        pyStartsWith line "Reason:" = false →
        pyStartsWith line "Timestamp:" = false →
        replaceStatusLine status reason timestamp line = line)
    ∧ (∀ line : String, pyStartsWith line "Verification Status:" = true →
        replaceStatusLine status reason timestamp line
          = "Verification Status: " ++ status)
    ∧ (∀ line : String, pyStartsWith line "Verification Status:" = false →
        pyStartsWith line "Reason:" = true →
        replaceStatusLine status reason timestamp line = "Reason: " ++ reason)
    ∧ (∀ line : String, pyStartsWith line "Verification Status:" = false →
        pyStartsWith line "Reason:" = false →
        pyStartsWith line "Timestamp:" = true →
        replaceStatusLine status reason timestamp line
          = "Timestamp: " ++ timestamp.getD "") := by
  refine ⟨?_, ?_, ?_, ?_, ?_⟩
  · rw [update_verification_status]
    apply pySplit_pyJoin
    · simp only [pySplit, Ne, List.map_eq_nil_iff]
      exact splitChar_ne_nil '\n' content.toList
    · intro y hy
      obtain ⟨x, hx, rfl⟩ := List.mem_map.mp hy
      obtain ⟨l, hl, rfl⟩ := List.mem_map.mp hx
      have hlf : '\n' ∉ (String.mk l).toList :=
        sep_not_mem_splitChar '\n' content.toList l hl
      rw [replaceStatusLine]
      split_ifs
      · rw [show ("Verification Status: " ++ status).toList
            = "Verification Status: ".toList ++ status.toList from String.data_append _ _]
        intro hmem
        rcases List.mem_append.mp hmem with h | h
        · exact absurd h (by decide)
        · exact hs h
      · rw [show ("Reason: " ++ reason).toList
            = "Reason: ".toList ++ reason.toList from String.data_append _ _]
        intro hmem
        rcases List.mem_append.mp hmem with h | h
        · exact absurd h (by decide)
        · exact hr h
      · rw [show ("Timestamp: " ++ timestamp.getD "").toList
            = "Timestamp: ".toList ++ (timestamp.getD "").toList from String.data_append _ _]
        intro hmem
        rcases List.mem_append.mp hmem with h | h
        · exact absurd h (by decide)
        · exact ht h
      · exact hlf
  · intro line h1 h2 h3
    simp [replaceStatusLine, h1, h2, h3]
  · intro line h1
    simp [replaceStatusLine, h1]
  · intro line h1 h2
    simp [replaceStatusLine, h1, h2]
  · intro line h1 h2 h3
    simp [replaceStatusLine, h1, h2, h3]

/-- Witness for C10 on the /api/upload sample content: the replacement
values are newline-free and the written-back line list is the old one
with exactly the three status lines replaced. -/
theorem C10_update_verification_status_frame_witness :
    ('\n' ∉ "Approved".toList ∧ '\n' ∉ "ok".toList
      ∧ '\n' ∉ ((some "t1").getD "").toList)
    ∧ pySplit '\n' (update_verification_status "Approved" "ok" (some "t1")
        examplePatientContent)
      = ["Name: A", "Age: 3", "Gender: F", "Condition: X",
         "Verification Status: Approved", "Reason: ok", "Timestamp: t1",
         "Clip Duration: 15s"] := by
  have h := (C10_update_verification_status_frame "Approved" "ok" (some "t1")
    examplePatientContent (by decide) (by decide) (by decide)).1
  exact ⟨⟨by decide, by decide, by decide⟩, h.trans (by decide)⟩

/-! ## Reconciliation Sync Loop (spec section 4.6; not present under src)

The repository source files contain no reconciliation loop; only the spec
describes it, so the component is modelled from the spec's words. Real
time (the fixed 5-second interval, single-flight) is abstracted as the
ordered sequence of remote snapshots observed by successive passes. -/

/-- A locally known session record: identity and its metadata blob. -/
structure SessionRecord where
  name : String
  meta : String
deriving DecidableEq, Repr

/-- Modelled from the spec: one pass of the Reconciliation Sync Loop
(section 4.6) — fetch the full remote session list, diff against the
locally known session identities, and for each remote session missing
locally read its metadata blob and append one local record; existing
local records are never mutated or removed. -/
def syncPass (localRecs : List SessionRecord) (remote : List (String × String)) :
    List SessionRecord :=
  localRecs ++
    (remote.filter fun r => !(localRecs.any fun l => l.name == r.1)).map
      fun r => ⟨r.1, r.2⟩

/-- Modelled from the spec: the loop runs one single-flight pass per tick,
each pass seeing that tick's remote snapshot. -/
def syncLoop : List SessionRecord → List (List (String × String)) → List SessionRecord
  | l, [] => l
  | l, snap :: rest => syncLoop (syncPass l snap) rest

/-- C7 (spec-modelled): each pass leaves every existing local record in
place and unmodified (the first localRecs.length entries of the result
are exactly localRecs), appends exactly one record per remote session
missing from the local identities — built from that session's metadata
blob — and nothing else; the loop is the pass iterated once per tick; and
on local {Data1, Data2} versus remote {Data1, Data2, Data3} exactly one
record, Data3, is appended while Data1 and Data2 keep their local
metadata even though the remote copies differ. -/
theorem C7_sync_pass_appends_missing (localRecs : List SessionRecord)
    (remote : List (String × String)) (snap : List (String × String))
    (rest : List (List (String × String))) :
    (syncPass localRecs remote).take localRecs.length = localRecs
    ∧ (syncPass localRecs remote).drop localRecs.length
        = (remote.filter fun r => !(localRecs.any fun l => l.name == r.1)).map
            (fun r => ⟨r.1, r.2⟩)
    ∧ syncLoop localRecs (snap :: rest) = syncLoop (syncPass localRecs snap) rest
    ∧ syncPass [⟨"Data1", "m1"⟩, ⟨"Data2", "m2"⟩]
        [("Data1", "x1"), ("Data2", "x2"), ("Data3", "x3")]
      = [⟨"Data1", "m1"⟩, ⟨"Data2", "m2"⟩, ⟨"Data3", "x3"⟩] := by
  refine ⟨?_, ?_, rfl, by decide⟩
  · rw [syncPass, List.take_left]
  · rw [syncPass, List.drop_left]
